import Mathlib

/-!
Shallow embedding of `cloud_vm_collector.py`: the vendor classifier
`_extract_cpu_vendor`, the paginated Azure pricing fetcher
`fetch_azure_vm_pricing`, and the fallback AWS fetcher
`fetch_aws_instances`.  Python strings are modelled as Lean `String`s,
with the operations the source uses (`str()`, `.lower()`, `in`,
`.startswith`, slicing) carried out on the underlying character lists.
Network behaviour is modelled as an explicit trace: one outcome per GET
the code issues, in order.
-/

/-- PyVal models the Python values that can reach `_extract_cpu_vendor`
and the record fields of the AWS instance catalogue: `None`, the float
`nan` that pandas substitutes for missing cells, strings, integers, and
lists of strings. -/
inductive PyVal where
  | none
  | nan
  | str (s : String)
  | int (n : Int)
  | list (elems : List String)
deriving DecidableEq

/-- Character for the decimal digit `n` (`n < 10`). -/
def digitChar (n : Nat) : Char := Char.ofNat (48 + n)

/-- Fuel-driven decimal digit expansion of a natural number, most
significant digit first (mirrors Python's rendering of an int). -/
def natDigitsGo : Nat → Nat → List Char
  | 0, _ => []
  | fuel + 1, n =>
    if n < 10 then [digitChar n]
    else natDigitsGo fuel (n / 10) ++ [digitChar (n % 10)]

/-- Decimal digits of `n`; `n + 1` units of fuel always suffice. -/
def natDigits (n : Nat) : List Char := natDigitsGo (n + 1) n

/-- Python `str` of an integer: optional minus sign then decimal digits. -/
def intStr (n : Int) : List Char :=
  if n < 0 then '-' :: natDigits n.natAbs else natDigits n.natAbs

/-- Comma-and-space separated concatenation, as in Python list display. -/
def commaJoin : List (List Char) → List Char
  | [] => []
  | [x] => x
  | x :: y :: xs => x ++ ", ".toList ++ commaJoin (y :: xs)

/-- Python `str(text)` for the modelled values: `None ↦ "None"`,
`nan ↦ "nan"`, a string is itself, an int renders in decimal, and a list
of strings renders as `['a', 'b']`. -/
def pyStr : PyVal → List Char
  | PyVal.none => "None".toList
  | PyVal.nan => "nan".toList
  | PyVal.str s => s.toList
  | PyVal.int n => intStr n
  | PyVal.list l => '[' :: commaJoin (l.map fun s => '\'' :: (s.toList ++ ['\''])) ++ [']']

/-- Python `.lower()` on the character list of a string. -/
def pyLower (s : List Char) : List Char := s.map Char.toLower

/-- Vendor classifier, lines 13-22 of `cloud_vm_collector.py`:
`text = str(text).lower()`, then case-folded substring tests in the
fixed order amd, intel, arm/ampere. -/
def _extract_cpu_vendor (text : PyVal) : String :=
  if "amd".toList <:+: pyLower (pyStr text) then "AMD"
  else if "intel".toList <:+: pyLower (pyStr text) then "Intel"
  else if "arm".toList <:+: pyLower (pyStr text) ∨ "ampere".toList <:+: pyLower (pyStr text) then "ARM"
  else "Unknown"

/-- Python `s.startswith(pre)` on character lists. -/
def pyStartsWith (s pre : String) : Bool := pre.toList.isPrefixOf s.toList

/-- Python `sku[:2]`. -/
def pySlice2 (s : String) : String := String.mk (s.toList.take 2)

/-- An element of the `Items` array of an Azure pricing page.  A field
holds `Option.none` when the corresponding key is absent from the JSON
item (Python `item.get(key)` then yields `None`; `item.get("armSkuName",
"")` yields `""`, which the filter treats the same way). -/
structure Item where
  armSkuName : Option String
  productName : Option String
  armRegionName : Option String
  unitPrice : Option Int
  currencyCode : Option String
  meterRegion : Option String
  serviceFamily : Option String
  type : Option String
deriving DecidableEq

/-- The projected row appended to `all_items` (lines 71-83). -/
structure Record where
  vmName : String
  productName : Option String
  location : Option String
  unitPrice : Option Int
  currency : Option String
  meterRegion : Option String
  cpuVendor : String
  series : String
  serviceFamily : Option String
  type : Option String
  armSku : String
deriving DecidableEq

/-- Line 53: `series_filter = ("P", "T", "B", "D", "H", "F")`. -/
def series_filter : List String := ["P", "T", "B", "D", "H", "F"]

/-- Projection of one accepted item (lines 71-83); `sku` is the already
extracted `armSkuName`. -/
def mkRecord (item : Item) (sku : String) : Record :=
  { vmName := sku
    productName := item.productName
    location := item.armRegionName
    unitPrice := item.unitPrice
    currency := item.currencyCode
    meterRegion := item.meterRegion
    cpuVendor := _extract_cpu_vendor (PyVal.str (item.productName.getD ""))
    series := if sku.toList.length > 1 then pySlice2 sku else sku
    serviceFamily := item.serviceFamily
    type := item.type
    armSku := sku }

/-- Line 69: `sku = item.get("armSkuName", "")`. -/
def itemSku (item : Item) : String := item.armSkuName.getD ""

/-- Acceptance test of line 70: `if sku and any(sku.startswith(prefix)
for prefix in series_filter)`. -/
def acceptItem (item : Item) : Prop :=
  itemSku item ≠ "" ∧ series_filter.any (fun p => pyStartsWith (itemSku item) p)

instance (item : Item) : Decidable (acceptItem item) := by
  unfold acceptItem
  infer_instance

/-- The per-page item loop (lines 66-83).  `allLen` is `len(all_items)`
at the time the page is processed; the source consults it in the
mid-page break test but never updates it inside the loop, so it is a
constant here exactly as in the source. -/
def filterItems (limit allLen : Nat) : List Item → List Record
  | [] => []
  | item :: rest =>
    if limit ≤ allLen then []
    else if acceptItem item then
      mkRecord item (itemSku item) :: filterItems limit allLen rest
    else
      filterItems limit allLen rest

/-- Outcome of one GET issued by the paginated fetcher: a timeout
(`requests.exceptions.Timeout`), any other exception raised while
fetching or parsing the page, or a parsed page with its `Items` array
and optional `NextPageLink`. -/
inductive Outcome where
  | timeout
  | error
  | success (items : List Item) (nextPageLink : Option String)
deriving DecidableEq

/-- The `while next_page and len(all_items) < limit` loop of
`fetch_azure_vm_pricing` (lines 57-100), driven by the trace of GET
outcomes.  Returns the collected records together with the list of
cursors actually requested, in order.  An exhausted trace simply ends
the run with what has been collected. -/
def fetchLoop (limit : Nat) : List Outcome → Option String → List Record → List Record × List String
  | _, Option.none, acc => (acc, [])
  | [], Option.some _, acc => (acc, [])
  | Outcome.timeout :: rest, Option.some url, acc =>
    if acc.length < limit then
      let r := fetchLoop limit rest (Option.some url) acc
      (r.1, url :: r.2)
    else (acc, [])
  | Outcome.error :: _, Option.some url, acc =>
    if acc.length < limit then (acc, [url]) else (acc, [])
  | Outcome.success items next :: rest, Option.some url, acc =>
    if acc.length < limit then
      let acc2 := acc ++ filterItems limit acc.length items
      if next = Option.none ∨ limit ≤ acc2.length then (acc2, [url])
      else
        let r := fetchLoop limit rest next acc2
        (r.1, url :: r.2)
    else (acc, [])

/-- Line 50: the fixed start URL of the pagination. -/
def base_url : String :=
  "https://prices.azure.com/api/retail/prices?$filter=serviceName eq \x27Virtual Machines\x27"

/-- Lines 45-103: run the pagination from `base_url` with an empty
accumulator against a given trace of GET outcomes. -/
def fetch_azure_vm_pricing (limit : Nat) (outcomes : List Outcome) : List Record × List String :=
  fetchLoop limit outcomes (Option.some base_url) []

/-- A raw AWS instance record: a JSON object, modelled as an ordered
association list of fields. -/
abbrev Rec := List (String × PyVal)

/-- Python `row.get(key)` / column access on one row: first value bound
to `key`, if any. -/
def getField : Rec → String → Option PyVal
  | [], _ => Option.none
  | (k', v) :: rest, k => if k' = k then Option.some v else getField rest k

/-- Column assignment on one row (`df[key] = ...` restricted to that
row): replace the value at `key`, or append the field if absent. -/
def setField : Rec → String → PyVal → Rec
  | [], k, v => [(k, v)]
  | (k', v') :: rest, k, v =>
    if k' = k then (k, v) :: rest else (k', v') :: setField rest k v

/-- Parsed response body of a fallback URL (line 125): either a JSON
object whose values are the records, or a JSON array of records. -/
inductive Body where
  | obj (entries : List (String × Rec))
  | arr (elems : List Rec)

/-- Lines 127-130: `list(data.values())` for a dict (Python dicts
preserve insertion order), the data itself for an array. -/
def normalizeBody : Body → List Rec
  | Body.obj entries => entries.map Prod.snd
  | Body.arr elems => elems

/-- Append a key to a column list unless it is already a column. -/
def insertCol (cs : List String) (k : String) : List String :=
  if k ∈ cs then cs else cs ++ [k]

/-- Fold one row's keys into a column list, in field order. -/
def rowCols (cs : List String) (r : Rec) : List String :=
  r.foldl (fun cs' kv => insertCol cs' kv.1) cs

/-- Columns of `pd.DataFrame(instances)` (line 135): the union of all
rows' keys, ordered by first appearance across the rows. -/
def dfColumns (rows : List Rec) : List String :=
  rows.foldl rowCols []

/-- One row of `pd.DataFrame(instances)`: a cell for every table
column, holding the row's own value or `NaN` when the row lacks the
column. -/
def reindexRow (cols : List String) (r : Rec) : Rec :=
  cols.map fun k => (k, (getField r k).getD PyVal.nan)

/-- Line 135, `df = pd.DataFrame(instances)`: every row is reindexed to
the full column union, NaN-filling missing cells. -/
def mkDataFrame (rows : List Rec) : List Rec :=
  rows.map (reindexRow (dfColumns rows))

/-- Membership test `key in df.columns` for a frame built from a list
of JSON objects: some row carries the key. -/
def hasCol (rows : List Rec) (k : String) : Bool :=
  rows.any fun r => r.any fun kv => kv.1 == k

/-- Lines 138/140: classify the value of column `k` in row `r`; a row
missing the column holds `NaN` there. -/
def vendorOf (r : Rec) (k : String) : PyVal :=
  PyVal.str (_extract_cpu_vendor ((getField r k).getD PyVal.nan))

/-- Lines 137-142: add the `CPU Vendor` column, keyed off whichever of
`processor` / `Processor` exists, else the constant `"Unknown"`. -/
def applyVendor (rows : List Rec) : List Rec :=
  if hasCol rows "processor" then
    rows.map fun r => setField r "CPU Vendor" (vendorOf r "processor")
  else if hasCol rows "Processor" then
    rows.map fun r => setField r "CPU Vendor" (vendorOf r "Processor")
  else
    rows.map fun r => setField r "CPU Vendor" (PyVal.str "Unknown")

/-- Outcome of trying one fallback URL: any exception out of
`session.get` / `raise_for_status` / `response.json` (line 147), or a
parsed body. -/
inductive AwsOutcome where
  | failure
  | success (body : Body)

/-- Lines 109-152: try the URLs in order; a failing URL or an empty
normalized body advances to the next URL; the first non-empty body is
built into a DataFrame (column union, NaN fill) and gets the
`CPU Vendor` column; exhaustion returns the empty frame. -/
def fetch_aws_instances : List AwsOutcome → List Rec
  | [] => []
  | AwsOutcome.failure :: rest => fetch_aws_instances rest
  | AwsOutcome.success body :: rest =>
    let instances := normalizeBody body
    if instances.isEmpty then fetch_aws_instances rest
    else applyVendor (mkDataFrame instances)

/-- One fallback attempt that contributes no data: either it fails, or
its body normalizes to the empty sequence. -/
def yieldsNoData : AwsOutcome → Bool
  | AwsOutcome.failure => true
  | AwsOutcome.success body => (normalizeBody body).isEmpty

/-- The input `v` contains the substring `needle` up to letter case:
some contiguous run of `str(v)` case-folds to `needle`. -/
def containsToken (v : PyVal) (needle : String) : Prop :=
  ∃ m, m <:+: pyStr v ∧ pyLower m = needle.toList

/-! ### Helper lemmas about characters and case-folded substrings -/

theorem digitChar_mem (n : Nat) (h : n < 10) :
    digitChar n ∈ ['0', '1', '2', '3', '4', '5', '6', '7', '8', '9'] := by
  interval_cases n <;> decide

theorem natDigitsGo_chars (fuel : Nat) :
    ∀ (n : Nat), ∀ c ∈ natDigitsGo fuel n,
      c ∈ ['0', '1', '2', '3', '4', '5', '6', '7', '8', '9'] := by
  induction fuel with
  | zero => intro n c hc; simp [natDigitsGo] at hc
  | succ fuel ih =>
    intro n c hc
    unfold natDigitsGo at hc
    split at hc
    · rename_i hlt
      simp only [List.mem_singleton] at hc
      subst hc
      exact digitChar_mem n hlt
    · rcases List.mem_append.mp hc with h1 | h2
      · exact ih _ c h1
      · simp only [List.mem_singleton] at h2
        subst h2
        exact digitChar_mem _ (Nat.mod_lt _ (by omega))

theorem intStr_chars (n : Int) :
    ∀ c ∈ intStr n, c ∈ '-' :: ['0', '1', '2', '3', '4', '5', '6', '7', '8', '9'] := by
  intro c hc
  unfold intStr at hc
  split at hc
  · rcases List.mem_cons.mp hc with rfl | h
    · exact List.mem_cons_self _ _
    · exact List.mem_cons_of_mem _ (natDigitsGo_chars _ _ c h)
  · exact List.mem_cons_of_mem _ (natDigitsGo_chars _ _ c hc)

theorem toLower_keep (d : Char)
    (hd : d ∈ '-' :: ['0', '1', '2', '3', '4', '5', '6', '7', '8', '9']) :
    d.toLower = d := by
  fin_cases hd <;> decide

theorem pyLower_int_chars (n : Int) :
    ∀ c ∈ pyLower (intStr n),
      c ∈ '-' :: ['0', '1', '2', '3', '4', '5', '6', '7', '8', '9'] := by
  intro c hc
  simp only [pyLower, List.mem_map] at hc
  obtain ⟨d, hd, rfl⟩ := hc
  have hmem := intStr_chars n d hd
  rw [toLower_keep d hmem]
  exact hmem

theorem containsToken_iff (v : PyVal) (needle : String) :
    containsToken v needle ↔ needle.toList <:+: pyLower (pyStr v) := by
  constructor
  · rintro ⟨m, hm, hlow⟩
    simp only [pyLower] at hlow ⊢
    rw [← hlow]
    exact hm.map Char.toLower
  · rintro ⟨s, t, hst⟩
    simp only [pyLower] at hst
    obtain ⟨l₁, l₂, hsplit, hs1, hs2⟩ := List.append_eq_map_iff.mp hst
    obtain ⟨a, b, hab, ha, hb⟩ := List.append_eq_map_iff.mp hs1.symm
    refine ⟨b, ⟨a, l₂, ?_⟩, ?_⟩
    · rw [hsplit, hab]
    · simp only [pyLower, hb]

theorem not_infix_int (n : Int) (needle : List Char) (c : Char) (hc : c ∈ needle)
    (hbad : c ∉ '-' :: ['0', '1', '2', '3', '4', '5', '6', '7', '8', '9']) :
    ¬ (needle <:+: pyLower (pyStr (PyVal.int n))) := by
  intro h
  exact hbad (pyLower_int_chars n c (h.subset hc))

/-! ### Claims about the vendor classifier -/

/-- C2 counterexample: the non-string input `["amd"]` is coerced to the
text `['amd']`, which contains `amd`, so the classifier returns `AMD`,
not `Unknown` as the claim demands for every non-string input. -/
theorem extract_cpu_vendor_list_counterexample :
    _extract_cpu_vendor (PyVal.list ["amd"]) = "AMD" ∧
    _extract_cpu_vendor (PyVal.list ["amd"]) ≠ "Unknown" := by
  decide

/-- C2 (amended): the null input and every numeric input classify as
Unknown (their text forms `None`, `nan`, and decimal digit strings
contain no vendor substring); other non-string inputs are classified by
their coerced text form and may classify as a vendor. -/
theorem extract_cpu_vendor_null_numeric_unknown :
    _extract_cpu_vendor PyVal.none = "Unknown" ∧
    _extract_cpu_vendor PyVal.nan = "Unknown" ∧
    ∀ n : Int, _extract_cpu_vendor (PyVal.int n) = "Unknown" := by
  refine ⟨by decide, by decide, fun n => ?_⟩
  have hamd := not_infix_int n "amd".toList 'a' (by decide) (by decide)
  have hintel := not_infix_int n "intel".toList 'i' (by decide) (by decide)
  have harm := not_infix_int n "arm".toList 'a' (by decide) (by decide)
  have hamp := not_infix_int n "ampere".toList 'a' (by decide) (by decide)
  simp only [_extract_cpu_vendor]
  rw [if_neg hamd, if_neg hintel, if_neg (not_or.mpr ⟨harm, hamp⟩)]

/-- C3: any input containing `amd` up to letter case classifies as AMD
even when the other vendor substrings occur too, and the precedence
order AMD, then Intel, then ARM (`arm` or `ampere`), then Unknown holds
for every combination of the four substrings. -/
theorem extract_cpu_vendor_precedence (v : PyVal) :
    (containsToken v "amd" → _extract_cpu_vendor v = "AMD") ∧
    (¬ containsToken v "amd" → containsToken v "intel" →
      _extract_cpu_vendor v = "Intel") ∧
    (¬ containsToken v "amd" → ¬ containsToken v "intel" →
      containsToken v "arm" ∨ containsToken v "ampere" →
      _extract_cpu_vendor v = "ARM") ∧
    (¬ containsToken v "amd" → ¬ containsToken v "intel" →
      ¬ containsToken v "arm" → ¬ containsToken v "ampere" →
      _extract_cpu_vendor v = "Unknown") := by
  simp only [containsToken_iff]
  refine ⟨fun h1 => ?_, fun h1 h2 => ?_, fun h1 h2 h3 => ?_, fun h1 h2 h3 h4 => ?_⟩
  · simp only [_extract_cpu_vendor]
    rw [if_pos h1]
  · simp only [_extract_cpu_vendor]
    rw [if_neg h1, if_pos h2]
  · simp only [_extract_cpu_vendor]
    rw [if_neg h1, if_neg h2, if_pos h3]
  · simp only [_extract_cpu_vendor]
    rw [if_neg h1, if_neg h2, if_neg (not_or.mpr ⟨h3, h4⟩)]

/-- C3 witness: a mixed-case input containing all four substrings
classifies as AMD. -/
theorem extract_cpu_vendor_precedence_witness :
    _extract_cpu_vendor (PyVal.str "AmD EPYC, Intel inside, ARM Ampere") = "AMD" :=
  (extract_cpu_vendor_precedence (PyVal.str "AmD EPYC, Intel inside, ARM Ampere")).1
    ⟨"AmD".toList, by decide, by decide⟩

/-! ### Claims about the paginated Azure fetcher -/

/-- Sample page item whose SKU passes the series filter. -/
def itemP1 : Item :=
  { armSkuName := Option.some "P1"
    productName := Option.some "P Series"
    armRegionName := Option.none
    unitPrice := Option.none
    currencyCode := Option.none
    meterRegion := Option.none
    serviceFamily := Option.none
    type := Option.none }

/-- Second sample page item whose SKU passes the series filter. -/
def itemP2 : Item :=
  { armSkuName := Option.some "P2"
    productName := Option.some "P Series"
    armRegionName := Option.none
    unitPrice := Option.none
    currencyCode := Option.none
    meterRegion := Option.none
    serviceFamily := Option.none
    type := Option.none }

/-- C8: calling the paginated fetcher with limit 0 yields no records and
issues no GET at all (the request trace is empty), whatever the source
would have answered. -/
theorem azure_limit_zero_no_request (outcomes : List Outcome) :
    fetch_azure_vm_pricing 0 outcomes = ([], []) := by
  cases outcomes with
  | nil => rfl
  | cons o rest => cases o <;> simp [fetch_azure_vm_pricing, fetchLoop]

/-- C1: evaluation at the failing input.  With limit 1 and a single page
holding two items that pass the series filter, the fetcher returns 2
records, exceeding the limit: the mid-page break of line 67 compares
against `all_items`, which is only extended after the page loop, so it
can never fire inside a page. -/
theorem azure_limit_overrun :
    ((fetch_azure_vm_pricing 1 [Outcome.success [itemP1, itemP2] Option.none]).1).length = 2 ∧
    1 < ((fetch_azure_vm_pricing 1 [Outcome.success [itemP1, itemP2] Option.none]).1).length := by
  decide

/-- C4: a non-timeout error stops pagination at once and yields exactly
the records accumulated before it, with nothing from the failed page;
in particular a successful page followed by an erroring page yields
exactly the first page's filtered records. -/
theorem azure_error_partial_result (limit : Nat) (url : String) (acc : List Record)
    (rest : List Outcome) (items : List Item) (u : String)
    (h1 : acc.length < limit) (h2 : (filterItems limit 0 items).length < limit) :
    fetchLoop limit (Outcome.error :: rest) (Option.some url) acc = (acc, [url]) ∧
    fetch_azure_vm_pricing limit
        (Outcome.success items (Option.some u) :: Outcome.error :: rest)
      = (filterItems limit 0 items, [base_url, u]) := by
  have h0 : (0 : Nat) < limit := by omega
  constructor
  · simp [fetchLoop, h1]
  · simp [fetch_azure_vm_pricing, fetchLoop, h0, h2, Nat.not_le.mpr h2]

/-- C4 witness at a concrete trace. -/
theorem azure_error_partial_result_witness :
    fetchLoop 5 (Outcome.error :: []) (Option.some "u") [] = ([], ["u"]) ∧
    fetch_azure_vm_pricing 5
        (Outcome.success [itemP1] (Option.some "u2") :: Outcome.error :: [])
      = (filterItems 5 0 [itemP1], [base_url, "u2"]) :=
  azure_error_partial_result 5 "u" [] [] [itemP1] "u2" (by decide) (by decide)

/-- C5: a run of timeouts never advances the cursor: every one of the
`k + 1` GETs goes to the same cursor, and once the page succeeds its
filtered records enter the result exactly once. -/
theorem azure_timeout_same_cursor (limit : Nat) (url : String) (acc : List Record)
    (k : Nat) (items : List Item) (h : acc.length < limit) :
    fetchLoop limit (List.replicate k Outcome.timeout ++ [Outcome.success items Option.none])
        (Option.some url) acc
      = (acc ++ filterItems limit acc.length items, List.replicate (k + 1) url) := by
  induction k with
  | zero => simp [fetchLoop, h]
  | succ k ih => simp [List.replicate_succ, fetchLoop, h, ih]

/-- C5 witness: two timeouts then a success, all three GETs to the same
cursor, records delivered once. -/
theorem azure_timeout_same_cursor_witness :
    fetchLoop 5 (List.replicate 2 Outcome.timeout ++ [Outcome.success [itemP1] Option.none])
        (Option.some "u") []
      = ([] ++ filterItems 5 ([] : List Record).length [itemP1], List.replicate (2 + 1) "u") :=
  azure_timeout_same_cursor 5 "u" [] 2 [itemP1] (by decide)

theorem filterItems_armSku (limit allLen : Nat) (items : List Item) :
    ∀ r ∈ filterItems limit allLen items, r.armSku = r.vmName ∧ r.armSku ≠ "" := by
  induction items with
  | nil => intro r hr; simp [filterItems] at hr
  | cons item rest ih =>
    intro r hr
    unfold filterItems at hr
    split at hr
    · simp at hr
    · split at hr
      · rename_i hacc
        rcases List.mem_cons.mp hr with rfl | hmem
        · exact ⟨rfl, hacc.1⟩
        · exact ih r hmem
      · exact ih r hr

theorem fetchLoop_armSku (limit : Nat) (outcomes : List Outcome) :
    ∀ (cur : Option String) (acc : List Record),
      (∀ r ∈ acc, r.armSku = r.vmName ∧ r.armSku ≠ "") →
      ∀ r ∈ (fetchLoop limit outcomes cur acc).1,
        r.armSku = r.vmName ∧ r.armSku ≠ "" := by
  induction outcomes with
  | nil =>
    intro cur acc hacc r hr
    cases cur <;> simp [fetchLoop] at hr <;> exact hacc r hr
  | cons o rest ih =>
    intro cur acc hacc r hr
    cases cur with
    | none => simp [fetchLoop] at hr; exact hacc r hr
    | some url =>
      by_cases hl : acc.length < limit
      · cases o with
        | timeout =>
          simp only [fetchLoop, if_pos hl] at hr
          exact ih _ _ hacc r hr
        | error =>
          simp only [fetchLoop, if_pos hl] at hr
          exact hacc r hr
        | success items next =>
          simp only [fetchLoop, if_pos hl] at hr
          have hext : ∀ s ∈ acc ++ filterItems limit acc.length items,
              s.armSku = s.vmName ∧ s.armSku ≠ "" := by
            intro s hs
            rcases List.mem_append.mp hs with h1 | h2
            · exact hacc s h1
            · exact filterItems_armSku _ _ _ s h2
          split at hr
          · exact hext r hr
          · exact ih _ _ hext r hr
      · cases o <;> simp only [fetchLoop, if_neg hl] at hr <;> exact hacc r hr

/-- C9: every record the paginated fetcher returns carries the same
non-empty SKU in its `Arm SKU` and `VM Name` fields (both are populated
from `armSkuName`, accepted only when truthy). -/
theorem azure_record_armsku (limit : Nat) (outcomes : List Outcome) (r : Record)
    (h : r ∈ (fetch_azure_vm_pricing limit outcomes).1) :
    r.armSku = r.vmName ∧ r.armSku ≠ "" :=
  fetchLoop_armSku limit outcomes (Option.some base_url) [] (by simp) r h

/-- C9 witness on a one-page run producing one record. -/
theorem azure_record_armsku_witness :
    (mkRecord itemP1 "P1").armSku = (mkRecord itemP1 "P1").vmName ∧
    (mkRecord itemP1 "P1").armSku ≠ "" :=
  azure_record_armsku 5 [Outcome.success [itemP1] Option.none]
    (mkRecord itemP1 "P1") (by decide)

/-! ### Claims about the fallback AWS fetcher -/

theorem getField_setField_same (r : Rec) (k : String) (v : PyVal) :
    getField (setField r k v) k = Option.some v := by
  induction r with
  | nil => simp [setField, getField]
  | cons kv rest ih =>
    obtain ⟨a, b⟩ := kv
    by_cases h : a = k
    · simp [setField, getField, h]
    · simp [setField, getField, h, ih]

theorem getField_setField_other (r : Rec) (k k' : String) (v : PyVal) (hne : k' ≠ k) :
    getField (setField r k v) k' = getField r k' := by
  induction r with
  | nil => simp [setField, getField, Ne.symm hne]
  | cons kv rest ih =>
    obtain ⟨a, b⟩ := kv
    by_cases h : a = k
    · subst h
      simp [setField, getField, Ne.symm hne]
    · by_cases h2 : a = k'
      · simp [setField, getField, h, h2, hne]
      · simp [setField, getField, h, h2, ih]

theorem keys_setField (r : Rec) (k : String) (v : PyVal)
    (habs : getField r k = Option.none) :
    (setField r k v).map Prod.fst = r.map Prod.fst ++ [k] := by
  induction r with
  | nil => simp [setField]
  | cons kv rest ih =>
    obtain ⟨a, b⟩ := kv
    by_cases h : a = k
    · exfalso
      simp [getField, h] at habs
    · simp only [getField, if_neg h] at habs
      simp [setField, h, ih habs]

/-- C6: a keyed-object body and a plain-array body holding the same
records in the same order normalize identically and give the whole
fetcher identical results (for two entries as for any number). -/
theorem aws_dict_array_agree (es : List (String × Rec)) (rest : List AwsOutcome) :
    normalizeBody (Body.obj es) = normalizeBody (Body.arr (es.map Prod.snd)) ∧
    fetch_aws_instances (AwsOutcome.success (Body.obj es) :: rest)
      = fetch_aws_instances (AwsOutcome.success (Body.arr (es.map Prod.snd)) :: rest) :=
  ⟨rfl, rfl⟩

/-- C7: when every URL fails or yields an empty normalized body, the
fallback fetcher returns the empty sequence; it is a total function, so
no exception reaches the caller. -/
theorem aws_exhaustion_returns_empty (attempts : List AwsOutcome)
    (h : ∀ a ∈ attempts, yieldsNoData a = true) :
    fetch_aws_instances attempts = [] := by
  induction attempts with
  | nil => rfl
  | cons a rest ih =>
    have ha := h a (List.mem_cons_self a rest)
    have hrest : ∀ x ∈ rest, yieldsNoData x = true :=
      fun x hx => h x (List.mem_cons_of_mem a hx)
    cases a with
    | failure => simp [fetch_aws_instances, ih hrest]
    | success body =>
      simp only [yieldsNoData] at ha
      simp [fetch_aws_instances, ha, ih hrest]

/-- C7 witness: one failing URL, one empty array body, one empty keyed
body. -/
theorem aws_exhaustion_returns_empty_witness :
    fetch_aws_instances
        [AwsOutcome.failure, AwsOutcome.success (Body.arr []),
          AwsOutcome.success (Body.obj [])] = [] :=
  aws_exhaustion_returns_empty _ (by decide)

/-- C10 counterexample: a source record that already carries a
`CPU Vendor` field has that field overwritten by the classifier result
(and no new column added), so not every source field survives
unchanged. -/
theorem aws_cpu_vendor_overwritten :
    fetch_aws_instances
        [AwsOutcome.success (Body.arr
          [[("CPU Vendor", PyVal.str "original"), ("processor", PyVal.str "Intel Xeon")]])]
      = [[("CPU Vendor", PyVal.str "Intel"), ("processor", PyVal.str "Intel Xeon")]] ∧
    getField [("CPU Vendor", PyVal.str "Intel"), ("processor", PyVal.str "Intel Xeon")]
        "CPU Vendor"
      ≠ getField [("CPU Vendor", PyVal.str "original"), ("processor", PyVal.str "Intel Xeon")]
        "CPU Vendor" := by
  decide

theorem mem_insertCol_self (cs : List String) (k : String) : k ∈ insertCol cs k := by
  unfold insertCol
  split
  · assumption
  · simp

theorem mem_insertCol_of_mem (cs : List String) (k x : String) (h : x ∈ cs) :
    x ∈ insertCol cs k := by
  unfold insertCol
  split
  · exact h
  · simp [h]

theorem mem_rowCols_of_mem (r : Rec) (cs : List String) (x : String) (h : x ∈ cs) :
    x ∈ rowCols cs r := by
  induction r generalizing cs with
  | nil => exact h
  | cons kv rest ih => exact ih _ (mem_insertCol_of_mem _ _ _ h)

theorem mem_rowCols_of_key (r : Rec) (cs : List String) (k : String)
    (h : k ∈ r.map Prod.fst) : k ∈ rowCols cs r := by
  induction r generalizing cs with
  | nil => simp at h
  | cons kv rest ih =>
    simp only [List.map_cons, List.mem_cons] at h
    rcases h with h1 | h2
    · show k ∈ rowCols (insertCol cs kv.1) rest
      refine mem_rowCols_of_mem rest _ _ ?_
      rw [h1]
      exact mem_insertCol_self cs kv.1
    · show k ∈ rowCols (insertCol cs kv.1) rest
      exact ih _ h2

theorem mem_foldl_rowCols_of_mem (rows : List Rec) (cs : List String) (x : String)
    (h : x ∈ cs) : x ∈ rows.foldl rowCols cs := by
  induction rows generalizing cs with
  | nil => exact h
  | cons head rest ih => exact ih _ (mem_rowCols_of_mem _ _ _ h)

theorem mem_foldl_rowCols (rows : List Rec) (r : Rec) (k : String)
    (hr : r ∈ rows) (hk : k ∈ r.map Prod.fst) :
    ∀ cs, k ∈ rows.foldl rowCols cs := by
  induction rows with
  | nil => simp at hr
  | cons head rest ih =>
    intro cs
    rcases List.mem_cons.mp hr with h1 | hmem
    · show k ∈ rest.foldl rowCols (rowCols cs head)
      refine mem_foldl_rowCols_of_mem rest _ _ ?_
      rw [h1] at hk
      exact mem_rowCols_of_key head cs k hk
    · show k ∈ rest.foldl rowCols (rowCols cs head)
      exact ih hmem _

theorem mem_dfColumns (rows : List Rec) (r : Rec) (k : String)
    (hr : r ∈ rows) (hk : k ∈ r.map Prod.fst) : k ∈ dfColumns rows :=
  mem_foldl_rowCols rows r k hr hk []

theorem getField_mem_keys (r : Rec) (k : String) (v : PyVal)
    (h : getField r k = Option.some v) : k ∈ r.map Prod.fst := by
  induction r with
  | nil => simp [getField] at h
  | cons kv rest ih =>
    obtain ⟨a, b⟩ := kv
    by_cases hak : a = k
    · subst hak
      simp
    · simp only [getField, if_neg hak] at h
      simp [ih h]

theorem getField_reindexRow (cols : List String) (r : Rec) (k : String) :
    getField (reindexRow cols r) k =
      if k ∈ cols then Option.some ((getField r k).getD PyVal.nan) else Option.none := by
  induction cols with
  | nil => simp [reindexRow, getField]
  | cons c cols ih =>
    simp only [reindexRow] at ih ⊢
    by_cases hck : c = k
    · subst hck
      simp [getField]
    · have hkc : ¬ k = c := fun hx => hck hx.symm
      simp [getField, hck, hkc, ih]

theorem keys_reindexRow (cols : List String) (r : Rec) :
    (reindexRow cols r).map Prod.fst = cols := by
  induction cols with
  | nil => rfl
  | cons c cols ih => simp [reindexRow] at ih ⊢; exact ih

/-- C10 (amended): on every successful fallback fetch, every field of
every source record other than a pre-existing `CPU Vendor` field keeps
its value in the corresponding output row; cells of table columns the
record lacks are NaN-filled (the DataFrame column union of line 135);
every output row carries a `CPU Vendor` value; and when no source
record has a `CPU Vendor` field, the output columns are exactly the
table's columns plus the single appended `CPU Vendor` column, while a
pre-existing `CPU Vendor` column is overwritten in place instead. -/
theorem aws_fields_preserved (body : Body) (rest : List AwsOutcome)
    (h : normalizeBody body ≠ []) :
    ∃ f, fetch_aws_instances (AwsOutcome.success body :: rest)
        = (normalizeBody body).map f ∧
      ∀ r ∈ normalizeBody body,
        (∀ k v, k ≠ "CPU Vendor" → getField r k = Option.some v →
          getField (f r) k = Option.some v) ∧
        (∀ k, k ≠ "CPU Vendor" → k ∈ dfColumns (normalizeBody body) →
          getField r k = Option.none → getField (f r) k = Option.some PyVal.nan) ∧
        (∃ v, getField (f r) "CPU Vendor" = Option.some v) ∧
        ("CPU Vendor" ∉ dfColumns (normalizeBody body) →
          (f r).map Prod.fst = dfColumns (normalizeBody body) ++ ["CPU Vendor"]) := by
  have hne : (normalizeBody body).isEmpty = false := by
    cases hnb : normalizeBody body with
    | nil => exact absurd hnb h
    | cons x xs => rfl
  have hprop : ∀ (w : Rec → PyVal), ∀ r ∈ normalizeBody body,
      (∀ k v, k ≠ "CPU Vendor" → getField r k = Option.some v →
        getField (setField (reindexRow (dfColumns (normalizeBody body)) r)
          "CPU Vendor" (w r)) k = Option.some v) ∧
      (∀ k, k ≠ "CPU Vendor" → k ∈ dfColumns (normalizeBody body) →
        getField r k = Option.none →
        getField (setField (reindexRow (dfColumns (normalizeBody body)) r)
          "CPU Vendor" (w r)) k = Option.some PyVal.nan) ∧
      (∃ v, getField (setField (reindexRow (dfColumns (normalizeBody body)) r)
          "CPU Vendor" (w r)) "CPU Vendor" = Option.some v) ∧
      ("CPU Vendor" ∉ dfColumns (normalizeBody body) →
        (setField (reindexRow (dfColumns (normalizeBody body)) r)
          "CPU Vendor" (w r)).map Prod.fst
          = dfColumns (normalizeBody body) ++ ["CPU Vendor"]) := by
    intro w r hr
    refine ⟨?_, ?_, ⟨_, getField_setField_same _ _ _⟩, ?_⟩
    · intro k v hk hv
      rw [getField_setField_other _ _ _ _ hk, getField_reindexRow,
        if_pos (mem_dfColumns _ r k hr (getField_mem_keys r k v hv)), hv]
      rfl
    · intro k hk hmem habs
      rw [getField_setField_other _ _ _ _ hk, getField_reindexRow, if_pos hmem, habs]
      rfl
    · intro hcv
      have habs : getField (reindexRow (dfColumns (normalizeBody body)) r)
          "CPU Vendor" = Option.none := by
        rw [getField_reindexRow, if_neg hcv]
      rw [keys_setField _ _ _ habs, keys_reindexRow]
  simp only [fetch_aws_instances, hne, Bool.false_eq_true, if_false]
  unfold applyVendor
  split
  · refine ⟨fun r => setField (reindexRow (dfColumns (normalizeBody body)) r) "CPU Vendor"
        (vendorOf (reindexRow (dfColumns (normalizeBody body)) r) "processor"), ?_, ?_⟩
    · simp only [mkDataFrame, List.map_map]
      rfl
    · exact hprop _
  · split
    · refine ⟨fun r => setField (reindexRow (dfColumns (normalizeBody body)) r) "CPU Vendor"
          (vendorOf (reindexRow (dfColumns (normalizeBody body)) r) "Processor"), ?_, ?_⟩
      · simp only [mkDataFrame, List.map_map]
        rfl
      · exact hprop _
    · refine ⟨fun r => setField (reindexRow (dfColumns (normalizeBody body)) r) "CPU Vendor"
          (PyVal.str "Unknown"), ?_, ?_⟩
      · simp only [mkDataFrame, List.map_map]
        rfl
      · exact hprop _

/-- C10 witness at a concrete one-record body. -/
theorem aws_fields_preserved_witness :
    ∃ f, fetch_aws_instances
          (AwsOutcome.success (Body.arr [[("processor", PyVal.str "AMD EPYC")]]) :: [])
        = (normalizeBody (Body.arr [[("processor", PyVal.str "AMD EPYC")]])).map f ∧
      ∀ r ∈ normalizeBody (Body.arr [[("processor", PyVal.str "AMD EPYC")]]),
        (∀ k v, k ≠ "CPU Vendor" → getField r k = Option.some v →
          getField (f r) k = Option.some v) ∧
        (∀ k, k ≠ "CPU Vendor" →
          k ∈ dfColumns (normalizeBody (Body.arr [[("processor", PyVal.str "AMD EPYC")]])) →
          getField r k = Option.none → getField (f r) k = Option.some PyVal.nan) ∧
        (∃ v, getField (f r) "CPU Vendor" = Option.some v) ∧
        ("CPU Vendor" ∉ dfColumns (normalizeBody (Body.arr [[("processor", PyVal.str "AMD EPYC")]])) →
          (f r).map Prod.fst
            = dfColumns (normalizeBody (Body.arr [[("processor", PyVal.str "AMD EPYC")]]))
              ++ ["CPU Vendor"]) :=
  aws_fields_preserved (Body.arr [[("processor", PyVal.str "AMD EPYC")]]) [] (by decide)
